import Mathlib

/-!
Shallow embedding of the subtitle-trim and timestamp logic of
`src/main.py` (class `YouTubeProcessor`).  Python strings are Lean
`String`s, Python floats are modelled as exact rationals (`ℚ`), and
Python code that can raise is modelled with `Option` (with `none` for a
raised exception at the point where the source catches it).
-/

/-- Python `str.strip` whitespace set (its ASCII part): space, tab,
newline, carriage return, vertical tab, form feed. -/
def isPySpace (c : Char) : Bool :=
  c = ' ' || c = '\t' || c = '\n' || c = '\r' || c = '\x0b' || c = '\x0c'

/-- Python `str.strip()`: drop leading and trailing whitespace. -/
def pyStrip (s : String) : String :=
  ⟨((s.data.dropWhile isPySpace).reverse.dropWhile isPySpace).reverse⟩

/-- Fueled worker for Python `str.split(sep)` with the non-empty
separator `c0 :: srest`; the fuel is an upper bound on the input length,
so the fuel-exhausted branch is unreachable in `pySplitStr`. -/
def pySplitChAux (c0 : Char) (srest : List Char) : Nat → List Char → List (List Char)
  | _, [] => [[]]
  | 0, l => [l]
  | fuel + 1, c :: rest =>
    if (c0 :: srest).isPrefixOf (c :: rest) then
      [] :: pySplitChAux c0 srest fuel (rest.drop srest.length)
    else
      match pySplitChAux c0 srest fuel rest with
      | [] => [[c]]
      | h :: t => (c :: h) :: t

/-- Python `s.split(sep)` for the non-empty separator `c0 :: srest`. -/
def pySplitStr (c0 : Char) (srest : List Char) (s : String) : List String :=
  (pySplitChAux c0 srest s.data.length s.data).map fun l => ⟨l⟩

/-- The character of a decimal digit value. -/
def digitChar (d : Nat) : Char := Char.ofNat (48 + d)

/-- The ten decimal digit characters. -/
def digitChars : List Char := ['0', '1', '2', '3', '4', '5', '6', '7', '8', '9']

/-- Decimal digits of `n`, most significant first (fueled worker; any
fuel `≥ n` gives the true digit string). -/
def natDigitsAux : Nat → Nat → List Char
  | 0, n => [digitChar n]
  | fuel + 1, n =>
    if n < 10 then [digitChar n] else natDigitsAux fuel (n / 10) ++ [digitChar (n % 10)]

/-- Decimal digit string of `n` (Python `str(n)` for `n : ℕ`). -/
def natDigits (n : Nat) : List Char := natDigitsAux n n

/-- Zero-pad `l` on the left to width `w` (Python `%0wd`, non-negative case). -/
def padZeros (w : Nat) (l : List Char) : List Char := List.replicate (w - l.length) '0' ++ l

/-- Python `f"{n:02d}"` for a natural number. -/
def pad2Nat (n : Nat) : String := ⟨padZeros 2 (natDigits n)⟩

/-- Python `f"{n:03d}"` for a natural number (the millisecond field). -/
def pad3Nat (n : Nat) : String := ⟨padZeros 3 (natDigits n)⟩

/-- Python `f"{i:02d}"` for an integer (zeros go between sign and digits). -/
def pad2Int (i : Int) : String :=
  if i < 0 then ⟨'-' :: padZeros 1 (natDigits i.natAbs)⟩ else pad2Nat i.toNat

/-- Python `str(n)` as a `String`. -/
def pyStrNat (n : Nat) : String := ⟨natDigits n⟩

/-- A digit or an underscore (what a Python numeric literal body may contain). -/
def isDigitU (c : Char) : Bool := c.isDigit || c = '_'

/-- Valid tail of a Python digit group: digits with single underscores
only between digits. -/
def validTail : List Char → Bool
  | [] => true
  | '_' :: c :: r => c.isDigit && validTail r
  | ['_'] => false
  | c :: r => c.isDigit && validTail r

/-- A valid Python digit group: non-empty, starts with a digit, single
interior underscores. -/
def validDigits (l : List Char) : Bool :=
  match l with
  | [] => false
  | c :: r => c.isDigit && validTail r

/-- Value of a digit-character list, most significant first. -/
def rawDigitsVal (l : List Char) : Nat := l.foldl (fun a c => a * 10 + (c.toNat - 48)) 0

/-- Numeric value of a Python digit group, ignoring underscores. -/
def digitsVal (l : List Char) : Nat := rawDigitsVal (l.filter fun c => c ≠ '_')

/-- Python `int(s)` on a string: optional surrounding whitespace, an
optional sign, then a digit group. -/
def pyInt? (s : String) : Option Int :=
  match (pyStrip s).data with
  | '+' :: r => if validDigits r then some (digitsVal r : Int) else none
  | '-' :: r => if validDigits r then some (-(digitsVal r : Int)) else none
  | r => if validDigits r then some (digitsVal r : Int) else none

/-- Optional exponent part of a Python float literal: nothing, or
`e`/`E`, an optional sign and a digit group; returns the scale `10 ^ e`. -/
def pyExpPart : List Char → Option ℚ
  | [] => some 1
  | c :: r =>
    if c = 'e' || c = 'E' then
      match r with
      | '+' :: r2 => if validDigits r2 then some ((10 : ℚ) ^ digitsVal r2) else none
      | '-' :: r2 => if validDigits r2 then some ((10 : ℚ) ^ (-(digitsVal r2 : ℤ))) else none
      | r2 => if validDigits r2 then some ((10 : ℚ) ^ digitsVal r2) else none
    else none

/-- Mantissa and exponent of Python `float(s)` after the optional sign:
`D [. D?] [exp]` or `. D [exp]` with `D` a digit group. -/
def pyFloatBody (l : List Char) : Option ℚ :=
  let ip := l.takeWhile isDigitU
  let rest := l.dropWhile isDigitU
  if rest.head? = some '.' then
    let fp := rest.tail.takeWhile isDigitU
    let rest3 := rest.tail.dropWhile isDigitU
    if (ip.isEmpty || validDigits ip) && (fp.isEmpty || validDigits fp) &&
        !(ip.isEmpty && fp.isEmpty) then
      (pyExpPart rest3).map fun ex =>
        ((digitsVal ip : ℚ) + (digitsVal fp : ℚ) / (10 : ℚ) ^ (fp.filter fun c => c ≠ '_').length) * ex
    else none
  else
    if validDigits ip then (pyExpPart rest).map fun ex => (digitsVal ip : ℚ) * ex else none

/-- Python `float(s)` restricted to finite decimal literals (`inf`/`nan`
spellings, which cannot occur in cue timings, are not modelled), as an
exact rational. -/
def pyFloat? (s : String) : Option ℚ :=
  match (pyStrip s).data with
  | '+' :: r => pyFloatBody r
  | '-' :: r => (pyFloatBody r).map Neg.neg
  | r => pyFloatBody r

/-- `YouTubeProcessor.parse_timestamp` (src/main.py:206-221): `MM:SS` or
`HH:MM:SS` to seconds; any other shape raises `ValueError`, modelled as
`none`. -/
def parse_timestamp (timestamp : String) : Option Int :=
  match pySplitStr ':' [] (pyStrip timestamp) with
  | [p0, p1] =>
    match pyInt? p0, pyInt? p1 with
    | some minutes, some seconds => some (minutes * 60 + seconds)
    | _, _ => none
  | [p0, p1, p2] =>
    match pyInt? p0, pyInt? p1, pyInt? p2 with
    | some hours, some minutes, some seconds =>
      some (hours * 3600 + minutes * 60 + seconds)
    | _, _, _ => none
  | _ => none

/-- `YouTubeProcessor._format_duration` (src/main.py:178-188).  Python's
falsy test `if not seconds` is `seconds = 0` for an integer input;
Python `//` and `%` are floor division and floor remainder. -/
def _format_duration (seconds : Int) : String :=
  if seconds = 0 then "N/A"
  else
    if seconds.fdiv 3600 > 0 then
      pad2Int (seconds.fdiv 3600) ++ ":" ++ pad2Int ((seconds.fmod 3600).fdiv 60) ++ ":" ++
        pad2Int (seconds.fmod 60)
    else pad2Int ((seconds.fmod 3600).fdiv 60) ++ ":" ++ pad2Int (seconds.fmod 60)

/-- `YouTubeProcessor.validate_timestamps` (src/main.py:223-238);
`duration` is the fetched video duration, each `raise` is `none`. -/
def validate_timestamps (duration : Int) (start_time end_time : String) :
    Option (Int × Int) :=
  match parse_timestamp start_time, parse_timestamp end_time with
  | some start_seconds, some end_seconds =>
    if start_seconds ≥ end_seconds then none
    else if start_seconds ≥ duration then none
    else if end_seconds > duration then none
    else some (start_seconds, end_seconds)
  | _, _ => none

/-- Python `s.replace(old, new)` for single characters. -/
def pyReplaceChar (old new : Char) (s : String) : String :=
  ⟨s.data.map fun c => if c = old then new else c⟩

/-- `YouTubeProcessor._srt_time_to_seconds` (src/main.py:404-411); list
indexing `parts[0..2]` out of range raises, modelled `none` (the caller
catches and skips); extra `:`-fields beyond the third are ignored, as in
the source. -/
def _srt_time_to_seconds (time_str : String) : Option ℚ :=
  match pySplitStr ':' [] (pyReplaceChar ',' '.' time_str) with
  | p0 :: p1 :: p2 :: _ =>
    match pyInt? p0, pyInt? p1, pyFloat? p2 with
    | some hours, some minutes, some seconds =>
      some ((hours : ℚ) * 3600 + (minutes : ℚ) * 60 + seconds)
    | _, _, _ => none
  | _ => none

/-- Python float `x % y`: `x - y * floor (x / y)`. -/
def pymod (x y : ℚ) : ℚ := x - y * ⌊x / y⌋

/-- Round to the nearest integer, ties to even: the rounding applied by
Python float formatting, in exact arithmetic. -/
def roundHalfEven (q : ℚ) : ℤ :=
  if q - ⌊q⌋ < 1 / 2 then ⌊q⌋
  else if q - ⌊q⌋ > 1 / 2 then ⌊q⌋ + 1
  else if 2 ∣ ⌊q⌋ then ⌊q⌋ else ⌊q⌋ + 1

/-- Python `f"{v:06.3f}"` for `0 ≤ v`: integer digits zero-padded to
width 2, a dot, three rounded fractional digits. -/
def fmt06_3 (v : ℚ) : String :=
  pad2Int ((roundHalfEven (v * 1000)).fdiv 1000) ++ "." ++
    pad3Nat ((roundHalfEven (v * 1000)).fmod 1000).toNat

/-- `YouTubeProcessor._seconds_to_srt_time` (src/main.py:413-418): the
`hours`, `minutes`, `secs` locals are inlined into the format string. -/
def _seconds_to_srt_time (seconds : ℚ) : String :=
  pyReplaceChar '.' ','
    (pad2Int ⌊seconds / 3600⌋ ++ ":" ++ pad2Int ⌊pymod seconds 3600 / 60⌋ ++ ":" ++
      fmt06_3 (pymod seconds 60))

/-- One parsed subtitle cue: start and end in seconds, and the text lines. -/
structure SubtitleCue where
  sub_start : ℚ
  sub_end : ℚ
  text : List String
deriving DecidableEq

/-- Parse one SRT block (src/main.py:370-379): at least 3 lines, the
second being `start --> end` with both times parseable; otherwise the
Python code skips the block via its per-block `try`/`except`, modelled
as `none`. -/
def parseBlock (block : String) : Option SubtitleCue :=
  match pySplitStr '\n' [] (pyStrip block) with
  | _ :: time_line :: t0 :: trest =>
    match pySplitStr ' ' ['-', '-', '>', ' '] time_line with
    | [start_time_str, end_time_str] =>
      match _srt_time_to_seconds start_time_str, _srt_time_to_seconds end_time_str with
      | some s, some e => some ⟨s, e, t0 :: trest⟩
      | _, _ => none
    | _ => none
  | _ => none

/-- The per-cue overlap test, re-timing, and degenerate-span guard
(src/main.py:381-392); the `new_start`/`new_end` locals are inlined. -/
def retimeCue (start_seconds end_seconds : ℚ) (c : SubtitleCue) : Option SubtitleCue :=
  if c.sub_end > start_seconds ∧ c.sub_start < end_seconds then
    if min (end_seconds - start_seconds) (c.sub_end - start_seconds) >
        max 0 (c.sub_start - start_seconds) then
      some ⟨max 0 (c.sub_start - start_seconds),
        min (end_seconds - start_seconds) (c.sub_end - start_seconds), c.text⟩
    else none
  else none

/-- Spec §4.3 `selectAndRetime`: the cue-level trim operation realised by
the block loop of `_trim_subtitle_file`. -/
def selectAndRetime (start_seconds end_seconds : ℚ) (track : List SubtitleCue) :
    List SubtitleCue :=
  track.filterMap (retimeCue start_seconds end_seconds)

/-- Serialize one surviving cue under its new index (src/main.py:390). -/
def renderBlock (counter : Nat) (c : SubtitleCue) : String :=
  pyStrNat counter ++ "\n" ++ _seconds_to_srt_time c.sub_start ++ " --> " ++
    _seconds_to_srt_time c.sub_end ++ "\n" ++ String.intercalate "\n" c.text

/-- The block loop of `_trim_subtitle_file` (src/main.py:368-394), with
its running `counter`. -/
def trimLoop (start_seconds end_seconds : ℚ) : List String → Nat → List String
  | [], _ => []
  | block :: rest, counter =>
    match (parseBlock block).bind (retimeCue start_seconds end_seconds) with
    | some c => renderBlock counter c :: trimLoop start_seconds end_seconds rest (counter + 1)
    | none => trimLoop start_seconds end_seconds rest counter

/-- `content.strip().split(two newlines)` (src/main.py:366). -/
def blocksOf (content : String) : List String := pySplitStr '\n' ['\n'] (pyStrip content)

/-- The cue track produced while trimming `content`: spec §4.2 parse
followed by spec §4.3 `selectAndRetime`. -/
def trimmedCues (content : String) (start_seconds end_seconds : ℚ) : List SubtitleCue :=
  selectAndRetime start_seconds end_seconds ((blocksOf content).filterMap parseBlock)

/-- `YouTubeProcessor._trim_subtitle_file` (src/main.py:359-402); the
input is `none` when reading the source file fails (the outer `except`
then writes an empty file), and the result is the text written out. -/
def _trim_subtitle_file (content : Option String) (start_seconds end_seconds : ℚ) :
    String :=
  match content with
  | none => ""
  | some c => String.intercalate "\n\n" (trimLoop start_seconds end_seconds (blocksOf c) 1)

/-- Reference version of Python `split` for a single-character separator,
convenient for induction; `pySplitChAux` agrees with it (see
`pySplitChAux_single`). -/
def splitOnChar (sep : Char) : List Char → List (List Char)
  | [] => [[]]
  | c :: rest =>
    if c = sep then [] :: splitOnChar sep rest
    else
      match splitOnChar sep rest with
      | [] => [[c]]
      | h :: t => (c :: h) :: t

/-- The canonical well-formed SRT time string `HH:MM:SS,mmm` built from
its four numeric fields (claim C3's notion of well-formed input). -/
def mkSrtTime (h m s ms : Nat) : String :=
  pad2Nat h ++ ":" ++ pad2Nat m ++ ":" ++ pad2Nat s ++ "," ++ pad3Nat ms

/-- Claim C1's selection rule, written exactly as the spec words it: keep
a cue iff it overlaps the window and its re-timed span is non-degenerate,
re-timing it to `max 0 (s - W.start)`, `min (W.end - W.start) (e - W.start)`. -/
def specKeepRule (wstart wend : ℚ) (c : SubtitleCue) : Option SubtitleCue :=
  if (c.sub_end > wstart ∧ c.sub_start < wend) ∧
      max 0 (c.sub_start - wstart) < min (wend - wstart) (c.sub_end - wstart) then
    some ⟨max 0 (c.sub_start - wstart), min (wend - wstart) (c.sub_end - wstart), c.text⟩
  else none

/-- Claim C1's version of the whole trim operation (spec wording). -/
def selectAndRetimeSpec (wstart wend : ℚ) (track : List SubtitleCue) : List SubtitleCue :=
  track.filterMap (specKeepRule wstart wend)

/-- Render surviving cues with consecutive indices starting at `k`. -/
def numberBlocks : Nat → List SubtitleCue → List String
  | _, [] => []
  | k, c :: cs => renderBlock k c :: numberBlocks (k + 1) cs

/-- The line decomposition of one block, as `_trim_subtitle_file` computes
it (`block.strip().split(newline)`, src/main.py:371). -/
def blockLines (block : String) : List String := pySplitStr '\n' [] (pyStrip block)

/-- Whether a block's second line parses as a cue time line:
`start --> end` with both sides accepted by `_srt_time_to_seconds`
(src/main.py:374-378). -/
def timeLineOk (time_line : String) : Bool :=
  match pySplitStr ' ' ['-', '-', '>', ' '] time_line with
  | [start_time_str, end_time_str] =>
    (_srt_time_to_seconds start_time_str).isSome && (_srt_time_to_seconds end_time_str).isSome
  | _ => false

/-! ### Helper lemmas: strings, stripping, splitting -/

theorem string_data_append (a b : String) : (a ++ b).data = a.data ++ b.data := rfl

theorem string_eq_of_data (a b : String) (h : a.data = b.data) : a = b := by
  cases a; cases b; exact congrArg String.mk h

theorem dropWhile_eq_self_of (p : Char → Bool) (l : List Char)
    (h : ∀ c ∈ l, p c = false) : l.dropWhile p = l := by
  cases l with
  | nil => rfl
  | cons c r => simp [List.dropWhile_cons, h c (by simp)]

theorem pyStrip_eq_self (l : List Char) (h : ∀ c ∈ l, isPySpace c = false) :
    pyStrip ⟨l⟩ = ⟨l⟩ := by
  unfold pyStrip
  rw [show (String.mk l).data = l from rfl]
  rw [dropWhile_eq_self_of _ _ h,
    dropWhile_eq_self_of _ _ (fun c hc => h c (by simpa using hc)), List.reverse_reverse]

theorem takeWhile_append_of_all (p : Char → Bool) (a b : List Char)
    (h : ∀ c ∈ a, p c = true) : List.takeWhile p (a ++ b) = a ++ List.takeWhile p b := by
  induction a with
  | nil => simp
  | cons x xs ih =>
    simp only [List.cons_append, List.takeWhile_cons, h x (by simp)]
    simp [ih fun c hc => h c (by simp [hc])]

theorem dropWhile_append_of_all (p : Char → Bool) (a b : List Char)
    (h : ∀ c ∈ a, p c = true) : List.dropWhile p (a ++ b) = List.dropWhile p b := by
  induction a with
  | nil => simp
  | cons x xs ih =>
    simp only [List.cons_append, List.dropWhile_cons, h x (by simp)]
    exact ih fun c hc => h c (by simp [hc])

theorem takeWhile_eq_self_of (p : Char → Bool) (l : List Char)
    (h : ∀ c ∈ l, p c = true) : List.takeWhile p l = l := by
  have := takeWhile_append_of_all p l [] h
  simpa using this

theorem dropWhile_eq_nil_of (p : Char → Bool) (l : List Char)
    (h : ∀ c ∈ l, p c = true) : List.dropWhile p l = [] := by
  have := dropWhile_append_of_all p l [] h
  simpa using this

theorem takeWhile_cons_of_neg (p : Char → Bool) (c : Char) (l : List Char)
    (h : p c = false) : List.takeWhile p (c :: l) = [] := by
  simp [List.takeWhile_cons, h]

theorem dropWhile_cons_of_neg (p : Char → Bool) (c : Char) (l : List Char)
    (h : p c = false) : List.dropWhile p (c :: l) = c :: l := by
  simp [List.dropWhile_cons, h]

theorem splitOnChar_cons (sep c : Char) (rest : List Char) :
    splitOnChar sep (c :: rest) =
      if c = sep then [] :: splitOnChar sep rest
      else
        match splitOnChar sep rest with
        | [] => [[c]]
        | h :: t => (c :: h) :: t := rfl

theorem splitOnChar_ne_nil (sep : Char) (l : List Char) : splitOnChar sep l ≠ [] := by
  cases l with
  | nil => simp [splitOnChar]
  | cons c rest =>
    unfold splitOnChar
    by_cases h : c = sep <;> simp [h]
    cases splitOnChar sep rest <;> simp

theorem pySplitChAux_single (sep : Char) :
    ∀ (fuel : Nat) (l : List Char), l.length ≤ fuel →
      pySplitChAux sep [] fuel l = splitOnChar sep l := by
  intro fuel
  induction fuel with
  | zero =>
    intro l hl
    have : l = [] := by cases l <;> simp_all
    subst this; rfl
  | succ fuel ih =>
    intro l hl
    cases l with
    | nil => rfl
    | cons c rest =>
      have hrest : rest.length ≤ fuel := by simpa using hl
      have haux : pySplitChAux sep [] (fuel + 1) (c :: rest) =
          if ([sep].isPrefixOf (c :: rest)) then
            [] :: pySplitChAux sep [] fuel (rest.drop ([] : List Char).length)
          else
            match pySplitChAux sep [] fuel rest with
            | [] => [[c]]
            | h :: t => (c :: h) :: t := rfl
      have hpre : ([sep].isPrefixOf (c :: rest)) = (sep == c) := by
        simp [List.isPrefixOf]
      rw [haux, splitOnChar_cons, hpre]
      by_cases hc : c = sep
      · subst hc
        simp only [beq_self_eq_true, if_true, if_pos rfl, List.length_nil, List.drop_zero]
        rw [ih rest hrest]
      · have hbeq : (sep == c) = false := by
          simpa using fun h => hc h.symm
        rw [hbeq, if_neg hc]
        simp only [Bool.false_eq_true, if_false]
        rw [ih rest hrest]

theorem pySplitStr_single (sep : Char) (s : String) :
    pySplitStr sep [] s = (splitOnChar sep s.data).map fun l => ⟨l⟩ :=
  congrArg _ (pySplitChAux_single sep s.data.length s.data le_rfl)

theorem splitOnChar_of_not_mem (sep : Char) (l : List Char) (h : sep ∉ l) :
    splitOnChar sep l = [l] := by
  induction l with
  | nil => rfl
  | cons c rest ih =>
    unfold splitOnChar
    have hc : ¬c = sep := fun hc => h (by simp [hc])
    rw [if_neg hc, ih (fun hr => h (by simp [hr]))]

theorem splitOnChar_append (sep : Char) (a b : List Char) (h : sep ∉ a) :
    splitOnChar sep (a ++ sep :: b) = a :: splitOnChar sep b := by
  induction a with
  | nil => simp [splitOnChar]
  | cons c rest ih =>
    have hc : ¬c = sep := fun hc => h (by simp [hc])
    have ht : sep ∉ rest := fun hr => h (by simp [hr])
    simp only [List.cons_append]
    rw [splitOnChar_cons, if_neg hc, ih ht]

/-! ### Helper lemmas: decimal digit strings -/

theorem digitChar_mem (d : Nat) (hd : d < 10) : digitChar d ∈ digitChars := by
  interval_cases d <;> decide

theorem digitChar_val (d : Nat) (hd : d < 10) : (digitChar d).toNat - 48 = d := by
  interval_cases d <;> decide

theorem digitChars_facts : ∀ c ∈ digitChars,
    c.isDigit = true ∧ isDigitU c = true ∧ isPySpace c = false ∧
    c ≠ ':' ∧ c ≠ ',' ∧ c ≠ '.' ∧ c ≠ '_' ∧ c ≠ '+' ∧ c ≠ '-' ∧ c ≠ '\n' ∧
    c ≠ 'e' ∧ c ≠ 'E' := by decide

theorem rawDigitsVal_append_singleton (l : List Char) (c : Char) :
    rawDigitsVal (l ++ [c]) = rawDigitsVal l * 10 + (c.toNat - 48) := by
  unfold rawDigitsVal
  rw [List.foldl_append]
  rfl

theorem natDigitsAux_spec : ∀ (fuel n : Nat), n ≤ fuel →
    natDigitsAux fuel n ≠ [] ∧ (∀ c ∈ natDigitsAux fuel n, c ∈ digitChars) ∧
      rawDigitsVal (natDigitsAux fuel n) = n := by
  intro fuel
  induction fuel with
  | zero =>
    intro n hn
    have hn0 : n = 0 := Nat.le_zero.mp hn
    subst hn0
    exact ⟨by decide, by decide, by decide⟩
  | succ fuel ih =>
    intro n _
    have heq : natDigitsAux (fuel + 1) n =
        if n < 10 then [digitChar n]
        else natDigitsAux fuel (n / 10) ++ [digitChar (n % 10)] := rfl
    by_cases h10 : n < 10
    · have he : natDigitsAux (fuel + 1) n = [digitChar n] := by
        rw [heq, if_pos h10]
      refine ⟨by simp [he], ?_, ?_⟩
      · intro c hc
        rw [he] at hc
        simp at hc
        subst hc
        exact digitChar_mem n h10
      · rw [he]
        have : rawDigitsVal [digitChar n] = (digitChar n).toNat - 48 := by
          unfold rawDigitsVal; simp [List.foldl]
        rw [this, digitChar_val n h10]
    · have he : natDigitsAux (fuel + 1) n =
          natDigitsAux fuel (n / 10) ++ [digitChar (n % 10)] := by
        rw [heq, if_neg h10]
      have hdiv : n / 10 ≤ fuel := by omega
      obtain ⟨hne, hmem, hval⟩ := ih (n / 10) hdiv
      refine ⟨by simp [he], ?_, ?_⟩
      · intro c hc
        rw [he] at hc
        rcases List.mem_append.mp hc with h | h
        · exact hmem c h
        · simp at h
          subst h
          exact digitChar_mem _ (Nat.mod_lt _ (by omega))
      · rw [he, rawDigitsVal_append_singleton, hval,
          digitChar_val _ (Nat.mod_lt _ (by omega))]
        omega

theorem natDigits_ne_nil (n : Nat) : natDigits n ≠ [] :=
  (natDigitsAux_spec n n le_rfl).1

theorem natDigits_mem (n : Nat) : ∀ c ∈ natDigits n, c ∈ digitChars :=
  (natDigitsAux_spec n n le_rfl).2.1

theorem natDigits_val (n : Nat) : rawDigitsVal (natDigits n) = n :=
  (natDigitsAux_spec n n le_rfl).2.2

theorem padZeros_ne_nil (w : Nat) (l : List Char) (h : l ≠ []) : padZeros w l ≠ [] := by
  unfold padZeros
  simp [h]

theorem padZeros_mem (w : Nat) (l : List Char) (h : ∀ c ∈ l, c ∈ digitChars) :
    ∀ c ∈ padZeros w l, c ∈ digitChars := by
  intro c hc
  unfold padZeros at hc
  rcases List.mem_append.mp hc with h0 | h0
  · rw [List.eq_of_mem_replicate h0]
    decide
  · exact h c h0

theorem rawDigitsVal_zeros_prefix : ∀ (k : Nat) (l : List Char),
    rawDigitsVal (List.replicate k '0' ++ l) = rawDigitsVal l := by
  intro k
  induction k with
  | zero => simp
  | succ k ih =>
    intro l
    have : List.replicate (k + 1) '0' ++ l = '0' :: (List.replicate k '0' ++ l) := by
      simp [List.replicate_succ]
    rw [this]
    have hfold : rawDigitsVal ('0' :: (List.replicate k '0' ++ l)) =
        rawDigitsVal (List.replicate k '0' ++ l) := by
      unfold rawDigitsVal
      simp [List.foldl_cons]
    rw [hfold, ih]

theorem padZeros_val (w : Nat) (l : List Char) :
    rawDigitsVal (padZeros w l) = rawDigitsVal l := rawDigitsVal_zeros_prefix _ _

theorem validTail_of_digits : ∀ l : List Char, (∀ c ∈ l, c ∈ digitChars) →
    validTail l = true := by
  intro l
  induction l with
  | nil => intro _; rfl
  | cons c r ih =>
    intro h
    have hc := digitChars_facts c (h c (by simp))
    have hd : c.isDigit = true := hc.1
    have hu : c ≠ '_' := hc.2.2.2.2.2.2.1
    have ht : validTail r = true := ih fun x hx => h x (by simp [hx])
    cases r with
    | nil =>
      cases c_eq : c == '_' <;> unfold validTail <;> simp_all
    | cons c2 r2 =>
      have h2 := digitChars_facts c2 (h c2 (by simp))
      unfold validTail
      split
      · simp_all
      · simp_all
      · simp_all
      · simp_all

theorem validDigits_of_digits (l : List Char) (hne : l ≠ [])
    (h : ∀ c ∈ l, c ∈ digitChars) : validDigits l = true := by
  cases l with
  | nil => exact absurd rfl hne
  | cons c r =>
    have hc := digitChars_facts c (h c (by simp))
    show (c.isDigit && validTail r) = true
    rw [hc.1, validTail_of_digits r fun x hx => h x (by simp [hx])]
    rfl

theorem digitsVal_of_digits (l : List Char) (h : ∀ c ∈ l, c ∈ digitChars) :
    digitsVal l = rawDigitsVal l := by
  unfold digitsVal
  congr 1
  apply List.filter_eq_self.mpr
  intro c hc
  have := (digitChars_facts c (h c hc)).2.2.2.2.2.2.1
  simpa using this

/-! ### Evaluation of the numeric parsers on digit strings -/

theorem pyInt?_of_digits (l : List Char) (hne : l ≠ [])
    (hmem : ∀ c ∈ l, c ∈ digitChars) : pyInt? ⟨l⟩ = some (digitsVal l : ℤ) := by
  have hstrip : pyStrip ⟨l⟩ = ⟨l⟩ :=
    pyStrip_eq_self l fun c hc => (digitChars_facts c (hmem c hc)).2.2.1
  unfold pyInt?
  rw [hstrip]
  split
  next r heq =>
    exfalso
    have hp : '+' ∈ l := by
      rw [show (String.mk l).data = l from rfl] at heq
      rw [heq]; simp
    exact (digitChars_facts '+' (hmem '+' hp)).2.2.2.2.2.2.2.1 rfl
  next r heq =>
    exfalso
    have hp : '-' ∈ l := by
      rw [show (String.mk l).data = l from rfl] at heq
      rw [heq]; simp
    exact (digitChars_facts '-' (hmem '-' hp)).2.2.2.2.2.2.2.2.1 rfl
  next r h1 h2 =>
    show (if validDigits l = true then some ((digitsVal l : ℕ) : ℤ) else none) = _
    rw [validDigits_of_digits l hne hmem]
    rfl

theorem pyInt?_padded (w n : Nat) :
    pyInt? ⟨padZeros w (natDigits n)⟩ = some (n : ℤ) := by
  rw [pyInt?_of_digits _ (padZeros_ne_nil _ _ (natDigits_ne_nil n))
    (padZeros_mem _ _ (natDigits_mem n))]
  rw [digitsVal_of_digits _ (padZeros_mem _ _ (natDigits_mem n)),
    padZeros_val, natDigits_val]

theorem pad2Nat_pyInt (n : Nat) : pyInt? (pad2Nat n) = some (n : ℤ) := pyInt?_padded 2 n

theorem padZeros_length (w : Nat) (l : List Char) : (padZeros w l).length = max w l.length := by
  unfold padZeros
  simp
  omega

set_option maxRecDepth 4000 in
theorem natDigits_length_le_three : ∀ n < 1000, (natDigits n).length ≤ 3 := by decide

theorem pyFloat?_digits_dot_digits (d1 d2 : List Char) (h1 : d1 ≠ [])
    (hm1 : ∀ c ∈ d1, c ∈ digitChars) (h2 : d2 ≠ [])
    (hm2 : ∀ c ∈ d2, c ∈ digitChars) :
    pyFloat? ⟨d1 ++ '.' :: d2⟩ =
      some ((digitsVal d1 : ℚ) + (digitsVal d2 : ℚ) / (10 : ℚ) ^ d2.length) := by
  have hall : ∀ c ∈ d1 ++ '.' :: d2, isPySpace c = false := by
    intro c hc
    rcases List.mem_append.mp hc with h | h
    · exact (digitChars_facts c (hm1 c h)).2.2.1
    · rcases List.mem_cons.mp h with h | h
      · subst h; decide
      · exact (digitChars_facts c (hm2 c h)).2.2.1
  have hstrip : pyStrip ⟨d1 ++ '.' :: d2⟩ = ⟨d1 ++ '.' :: d2⟩ := pyStrip_eq_self _ hall
  have hbody : pyFloatBody (d1 ++ '.' :: d2) =
      some ((digitsVal d1 : ℚ) + (digitsVal d2 : ℚ) / (10 : ℚ) ^ d2.length) := by
    have hu1 : ∀ c ∈ d1, isDigitU c = true := fun c hc => (digitChars_facts c (hm1 c hc)).2.1
    have hu2 : ∀ c ∈ d2, isDigitU c = true := fun c hc => (digitChars_facts c (hm2 c hc)).2.1
    have hdot : isDigitU '.' = false := by decide
    have htake : (d1 ++ '.' :: d2).takeWhile isDigitU = d1 := by
      rw [takeWhile_append_of_all _ _ _ hu1, takeWhile_cons_of_neg _ _ _ hdot]
      simp
    have hdrop : (d1 ++ '.' :: d2).dropWhile isDigitU = '.' :: d2 := by
      rw [dropWhile_append_of_all _ _ _ hu1, dropWhile_cons_of_neg _ _ _ hdot]
    have hv1 : validDigits d1 = true := validDigits_of_digits _ h1 hm1
    have hv2 : validDigits d2 = true := validDigits_of_digits _ h2 hm2
    have hne1 : d1.isEmpty = false := by
      cases d1 with
      | nil => exact absurd rfl h1
      | cons a b => rfl
    have hfe : (d2.filter fun c => c ≠ '_') = d2 := by
      apply List.filter_eq_self.mpr
      intro c hc
      have := (digitChars_facts c (hm2 c hc)).2.2.2.2.2.2.1
      simpa using this
    unfold pyFloatBody
    rw [htake, hdrop]
    simp only [List.head?_cons, List.tail_cons, takeWhile_eq_self_of _ _ hu2,
      dropWhile_eq_nil_of _ _ hu2, hv1, hv2, hne1, hfe]
    simp [pyExpPart]
  unfold pyFloat?
  rw [hstrip]
  split
  next r heq =>
    exfalso
    have hp : '+' ∈ d1 ++ '.' :: d2 := by
      rw [show (String.mk (d1 ++ '.' :: d2)).data = d1 ++ '.' :: d2 from rfl] at heq
      rw [heq]; simp
    rcases List.mem_append.mp hp with h | h
    · exact (digitChars_facts '+' (hm1 '+' h)).2.2.2.2.2.2.2.1 rfl
    · rcases List.mem_cons.mp h with h | h
      · exact absurd h (by decide)
      · exact (digitChars_facts '+' (hm2 '+' h)).2.2.2.2.2.2.2.1 rfl
  next r heq =>
    exfalso
    have hp : '-' ∈ d1 ++ '.' :: d2 := by
      rw [show (String.mk (d1 ++ '.' :: d2)).data = d1 ++ '.' :: d2 from rfl] at heq
      rw [heq]; simp
    rcases List.mem_append.mp hp with h | h
    · exact (digitChars_facts '-' (hm1 '-' h)).2.2.2.2.2.2.2.2.1 rfl
    · rcases List.mem_cons.mp h with h | h
      · exact absurd h (by decide)
      · exact (digitChars_facts '-' (hm2 '-' h)).2.2.2.2.2.2.2.2.1 rfl
  next r h1x h2x =>
    show pyFloatBody (d1 ++ '.' :: d2) = _
    exact hbody

/-! ### Round trip of SRT cue times -/

theorem map_replace_eq_self_of (old new : Char) (l : List Char)
    (h : ∀ c ∈ l, c ≠ old) : (l.map fun c => if c = old then new else c) = l := by
  induction l with
  | nil => rfl
  | cons x xs ih =>
    simp only [List.map_cons, if_neg (h x (by simp))]
    rw [ih fun c hc => h c (by simp [hc])]

theorem digitsVal_padded (w n : Nat) : digitsVal (padZeros w (natDigits n)) = n := by
  rw [digitsVal_of_digits _ (padZeros_mem _ _ (natDigits_mem n)), padZeros_val, natDigits_val]

theorem srt_time_parse_mk (h m s ms : Nat) (hms : ms < 1000) :
    _srt_time_to_seconds (mkSrtTime h m s ms) =
      some ((h : ℚ) * 3600 + (m : ℚ) * 60 + ((s : ℚ) + (ms : ℚ) / 1000)) := by
  have hH := padZeros_mem 2 _ (natDigits_mem h)
  have hM := padZeros_mem 2 _ (natDigits_mem m)
  have hS := padZeros_mem 2 _ (natDigits_mem s)
  have hMs := padZeros_mem 3 _ (natDigits_mem ms)
  have hdata : (mkSrtTime h m s ms).data =
      padZeros 2 (natDigits h) ++ ':' ::
        (padZeros 2 (natDigits m) ++ ':' ::
          (padZeros 2 (natDigits s) ++ ',' :: padZeros 3 (natDigits ms))) := by
    show (pad2Nat h ++ ":" ++ pad2Nat m ++ ":" ++ pad2Nat s ++ "," ++ pad3Nat ms).data = _
    simp only [string_data_append]
    show padZeros 2 (natDigits h) ++ [':'] ++ padZeros 2 (natDigits m) ++ [':'] ++
        padZeros 2 (natDigits s) ++ [','] ++ padZeros 3 (natDigits ms) = _
    simp [List.append_assoc]
  have hrepl : pyReplaceChar ',' '.' (mkSrtTime h m s ms) =
      ⟨padZeros 2 (natDigits h) ++ ':' ::
        (padZeros 2 (natDigits m) ++ ':' ::
          (padZeros 2 (natDigits s) ++ '.' :: padZeros 3 (natDigits ms)))⟩ := by
    unfold pyReplaceChar
    rw [hdata]
    congr 1
    simp only [List.map_append, List.map_cons]
    rw [map_replace_eq_self_of _ _ _ fun c hc => (digitChars_facts c (hH c hc)).2.2.2.2.1,
      map_replace_eq_self_of _ _ _ fun c hc => (digitChars_facts c (hM c hc)).2.2.2.2.1,
      map_replace_eq_self_of _ _ _ fun c hc => (digitChars_facts c (hS c hc)).2.2.2.2.1,
      map_replace_eq_self_of _ _ _ fun c hc => (digitChars_facts c (hMs c hc)).2.2.2.2.1]
    norm_num
    decide
  have hsplit : pySplitStr ':' [] (pyReplaceChar ',' '.' (mkSrtTime h m s ms)) =
      [⟨padZeros 2 (natDigits h)⟩, ⟨padZeros 2 (natDigits m)⟩,
        ⟨padZeros 2 (natDigits s) ++ '.' :: padZeros 3 (natDigits ms)⟩] := by
    rw [hrepl, pySplitStr_single]
    have hnc : ∀ (l : List Char), (∀ c ∈ l, c ∈ digitChars) → ':' ∉ l := by
      intro l hl hmem
      exact (digitChars_facts ':' (hl ':' hmem)).2.2.2.1 rfl
    have h3 : ':' ∉ padZeros 2 (natDigits s) ++ '.' :: padZeros 3 (natDigits ms) := by
      intro hmem
      rcases List.mem_append.mp hmem with hx | hx
      · exact hnc _ hS hx
      · rcases List.mem_cons.mp hx with hx | hx
        · exact absurd hx (by decide)
        · exact hnc _ hMs hx
    rw [show (String.mk (padZeros 2 (natDigits h) ++ ':' ::
        (padZeros 2 (natDigits m) ++ ':' ::
          (padZeros 2 (natDigits s) ++ '.' :: padZeros 3 (natDigits ms))))).data =
        padZeros 2 (natDigits h) ++ ':' ::
        (padZeros 2 (natDigits m) ++ ':' ::
          (padZeros 2 (natDigits s) ++ '.' :: padZeros 3 (natDigits ms))) from rfl]
    rw [splitOnChar_append _ _ _ (hnc _ hH), splitOnChar_append _ _ _ (hnc _ hM),
      splitOnChar_of_not_mem _ _ h3]
    rfl
  unfold _srt_time_to_seconds
  rw [hsplit]
  have hfloat : pyFloat? ⟨padZeros 2 (natDigits s) ++ '.' :: padZeros 3 (natDigits ms)⟩ =
      some ((s : ℚ) + (ms : ℚ) / 1000) := by
    rw [pyFloat?_digits_dot_digits _ _ (padZeros_ne_nil _ _ (natDigits_ne_nil s)) hS
      (padZeros_ne_nil _ _ (natDigits_ne_nil ms)) hMs]
    rw [digitsVal_padded, digitsVal_padded, padZeros_length]
    have hlen : (natDigits ms).length ≤ 3 := natDigits_length_le_three ms hms
    rw [show max 3 (natDigits ms).length = 3 by omega]
    norm_num
  show (match pyInt? (pad2Nat h), pyInt? (pad2Nat m),
      pyFloat? (⟨padZeros 2 (natDigits s) ++ '.' :: padZeros 3 (natDigits ms)⟩ : String) with
    | some hours, some minutes, some seconds =>
      some ((hours : ℚ) * 3600 + (minutes : ℚ) * 60 + seconds)
    | _, _, _ => none) = _
  rw [pad2Nat_pyInt, pad2Nat_pyInt, hfloat]
  show some (((h : ℤ) : ℚ) * 3600 + ((m : ℤ) : ℚ) * 60 + ((s : ℚ) + (ms : ℚ) / 1000)) = _
  push_cast
  ring_nf

theorem floor_intCast_add_of (z : ℤ) (r : ℚ) (h0 : 0 ≤ r) (h1 : r < 1) :
    ⌊(z : ℚ) + r⌋ = z := by
  rw [add_comm, Int.floor_add_int, Int.floor_eq_zero_iff.mpr (Set.mem_Ico.mpr ⟨h0, h1⟩),
    zero_add]

theorem roundHalfEven_natCast (k : Nat) : roundHalfEven ((k : ℚ)) = (k : ℤ) := by
  unfold roundHalfEven
  rw [Int.floor_natCast]
  norm_num

theorem pad2Int_natCast (n : Nat) : pad2Int ((n : ℤ)) = pad2Nat n := by
  unfold pad2Int
  rw [if_neg (by omega : ¬(n : ℤ) < 0)]
  simp

theorem fmt06_3_eval (s ms : Nat) (hms : ms < 1000) :
    fmt06_3 ((s : ℚ) + (ms : ℚ) / 1000) = pad2Nat s ++ "." ++ pad3Nat ms := by
  have hval : ((s : ℚ) + (ms : ℚ) / 1000) * 1000 = ((1000 * s + ms : ℕ) : ℚ) := by
    push_cast; ring
  have hfdiv : ((1000 * s + ms : ℕ) : ℤ).fdiv 1000 = (s : ℤ) := by
    rw [Int.fdiv_eq_ediv _ (by norm_num)]
    omega
  have hfmod : ((1000 * s + ms : ℕ) : ℤ).fmod 1000 = (ms : ℤ) := by
    rw [Int.fmod_eq_emod _ (by norm_num)]
    omega
  unfold fmt06_3
  rw [hval, roundHalfEven_natCast, hfdiv, hfmod, pad2Int_natCast]
  simp

theorem mkSrtTime_data (h m s ms : Nat) :
    (mkSrtTime h m s ms).data =
      padZeros 2 (natDigits h) ++ ':' ::
        (padZeros 2 (natDigits m) ++ ':' ::
          (padZeros 2 (natDigits s) ++ ',' :: padZeros 3 (natDigits ms))) := by
  show (pad2Nat h ++ ":" ++ pad2Nat m ++ ":" ++ pad2Nat s ++ "," ++ pad3Nat ms).data = _
  simp only [string_data_append]
  show padZeros 2 (natDigits h) ++ [':'] ++ padZeros 2 (natDigits m) ++ [':'] ++
      padZeros 2 (natDigits s) ++ [','] ++ padZeros 3 (natDigits ms) = _
  simp [List.append_assoc]

theorem seconds_to_srt_mk (h m s ms : Nat) (hm : m < 60) (hs : s < 60) (hms : ms < 1000) :
    _seconds_to_srt_time ((h : ℚ) * 3600 + (m : ℚ) * 60 + ((s : ℚ) + (ms : ℚ) / 1000)) =
      mkSrtTime h m s ms := by
  have hsQ : (s : ℚ) ≤ 59 := by exact_mod_cast Nat.le_of_lt_succ hs
  have hmQ : (m : ℚ) ≤ 59 := by exact_mod_cast Nat.le_of_lt_succ hm
  have hmsQ : (ms : ℚ) / 1000 < 1 := by
    rw [div_lt_one (by norm_num)]
    exact_mod_cast hms
  have hYnn : (0 : ℚ) ≤ (s : ℚ) + (ms : ℚ) / 1000 := by positivity
  have hYlt : (s : ℚ) + (ms : ℚ) / 1000 < 60 := by linarith
  have hXnn : (0 : ℚ) ≤ (m : ℚ) * 60 + ((s : ℚ) + (ms : ℚ) / 1000) := by positivity
  have hXlt : (m : ℚ) * 60 + ((s : ℚ) + (ms : ℚ) / 1000) < 3600 := by linarith
  have hq3600 : ((h : ℚ) * 3600 + (m : ℚ) * 60 + ((s : ℚ) + (ms : ℚ) / 1000)) / 3600 =
      ((h : ℤ) : ℚ) + ((m : ℚ) * 60 + ((s : ℚ) + (ms : ℚ) / 1000)) / 3600 := by
    push_cast
    ring
  have hfloor1 : ⌊((h : ℚ) * 3600 + (m : ℚ) * 60 + ((s : ℚ) + (ms : ℚ) / 1000)) / 3600⌋ =
      (h : ℤ) := by
    rw [hq3600, floor_intCast_add_of _ _ (by positivity)
      (by rw [div_lt_one (by norm_num)]; linarith)]
  have hpymod1 : pymod ((h : ℚ) * 3600 + (m : ℚ) * 60 + ((s : ℚ) + (ms : ℚ) / 1000)) 3600 =
      (m : ℚ) * 60 + ((s : ℚ) + (ms : ℚ) / 1000) := by
    unfold pymod
    rw [hfloor1]
    push_cast
    ring
  have hfloor2 : ⌊pymod ((h : ℚ) * 3600 + (m : ℚ) * 60 + ((s : ℚ) + (ms : ℚ) / 1000)) 3600
      / 60⌋ = (m : ℤ) := by
    rw [hpymod1]
    have : ((m : ℚ) * 60 + ((s : ℚ) + (ms : ℚ) / 1000)) / 60 =
        ((m : ℤ) : ℚ) + ((s : ℚ) + (ms : ℚ) / 1000) / 60 := by
      push_cast
      ring
    rw [this, floor_intCast_add_of _ _ (by positivity)
      (by rw [div_lt_one (by norm_num)]; linarith)]
  have hfloorq60 : ⌊((h : ℚ) * 3600 + (m : ℚ) * 60 + ((s : ℚ) + (ms : ℚ) / 1000)) / 60⌋ =
      (60 * (h : ℤ) + (m : ℤ)) := by
    have : ((h : ℚ) * 3600 + (m : ℚ) * 60 + ((s : ℚ) + (ms : ℚ) / 1000)) / 60 =
        ((60 * (h : ℤ) + (m : ℤ) : ℤ) : ℚ) + ((s : ℚ) + (ms : ℚ) / 1000) / 60 := by
      push_cast
      ring
    rw [this, floor_intCast_add_of _ _ (by positivity)
      (by rw [div_lt_one (by norm_num)]; linarith)]
  have hpymod2 : pymod ((h : ℚ) * 3600 + (m : ℚ) * 60 + ((s : ℚ) + (ms : ℚ) / 1000)) 60 =
      (s : ℚ) + (ms : ℚ) / 1000 := by
    unfold pymod
    rw [hfloorq60]
    push_cast
    ring
  unfold _seconds_to_srt_time
  rw [hfloor1, hfloor2, hpymod2, fmt06_3_eval s ms hms, pad2Int_natCast, pad2Int_natCast]
  apply string_eq_of_data
  rw [mkSrtTime_data]
  show List.map _ ((pad2Nat h ++ ":" ++ pad2Nat m ++ ":" ++
      (pad2Nat s ++ "." ++ pad3Nat ms)).data) = _
  have hdata2 : (pad2Nat h ++ ":" ++ pad2Nat m ++ ":" ++
      (pad2Nat s ++ "." ++ pad3Nat ms)).data =
      padZeros 2 (natDigits h) ++ ':' ::
        (padZeros 2 (natDigits m) ++ ':' ::
          (padZeros 2 (natDigits s) ++ '.' :: padZeros 3 (natDigits ms))) := by
    simp only [string_data_append]
    show padZeros 2 (natDigits h) ++ [':'] ++ padZeros 2 (natDigits m) ++ [':'] ++
        (padZeros 2 (natDigits s) ++ ['.'] ++ padZeros 3 (natDigits ms)) = _
    simp [List.append_assoc]
  rw [hdata2]
  have hH := padZeros_mem 2 _ (natDigits_mem h)
  have hM := padZeros_mem 2 _ (natDigits_mem m)
  have hS := padZeros_mem 2 _ (natDigits_mem s)
  have hMs := padZeros_mem 3 _ (natDigits_mem ms)
  simp only [List.map_append, List.map_cons]
  rw [map_replace_eq_self_of _ _ _ fun c hc => (digitChars_facts c (hH c hc)).2.2.2.2.2.1,
    map_replace_eq_self_of _ _ _ fun c hc => (digitChars_facts c (hM c hc)).2.2.2.2.2.1,
    map_replace_eq_self_of _ _ _ fun c hc => (digitChars_facts c (hS c hc)).2.2.2.2.2.1,
    map_replace_eq_self_of _ _ _ fun c hc => (digitChars_facts c (hMs c hc)).2.2.2.2.2.1]
  norm_num
  decide

/-! ### Claim theorems -/

/-- Claim C3: for every well-formed SRT time string `HH:MM:SS,mmm`
(built by `mkSrtTime` from fields `h < 100`, `m < 60`, `s < 60`,
`ms < 1000`), parsing yields `h*3600 + m*60 + s.ms` seconds, and
serializing that value (with millisecond rounding rather than
truncation) reproduces the string exactly, hence cue timing is preserved
to millisecond precision. -/
theorem srt_time_roundtrip (h m s ms : Nat) (_hh : h < 100) (hm : m < 60) (hs : s < 60)
    (hms : ms < 1000) :
    _srt_time_to_seconds (mkSrtTime h m s ms) =
      some ((h : ℚ) * 3600 + (m : ℚ) * 60 + ((s : ℚ) + (ms : ℚ) / 1000)) ∧
    _seconds_to_srt_time ((h : ℚ) * 3600 + (m : ℚ) * 60 + ((s : ℚ) + (ms : ℚ) / 1000)) =
      mkSrtTime h m s ms :=
  ⟨srt_time_parse_mk h m s ms hms, seconds_to_srt_mk h m s ms hm hs hms⟩

theorem srt_time_roundtrip_witness :
    (1 < 100 ∧ 2 < 60 ∧ 3 < 60 ∧ 450 < 1000) ∧
    (_srt_time_to_seconds (mkSrtTime 1 2 3 450) =
        some ((1 : ℚ) * 3600 + (2 : ℚ) * 60 + ((3 : ℚ) + (450 : ℚ) / 1000)) ∧
      _seconds_to_srt_time ((1 : ℚ) * 3600 + (2 : ℚ) * 60 + ((3 : ℚ) + (450 : ℚ) / 1000)) =
        mkSrtTime 1 2 3 450) :=
  ⟨by decide, srt_time_roundtrip 1 2 3 450 (by decide) (by decide) (by decide) (by decide)⟩

theorem retimeCue_eq_specKeepRule (ws we : ℚ) (c : SubtitleCue) :
    retimeCue ws we c = specKeepRule ws we c := by
  unfold retimeCue specKeepRule
  by_cases h1 : c.sub_end > ws ∧ c.sub_start < we
  · rw [if_pos h1]
    by_cases h2 : min (we - ws) (c.sub_end - ws) > max 0 (c.sub_start - ws)
    · rw [if_pos h2, if_pos ⟨h1, h2⟩]
    · rw [if_neg h2, if_neg fun hc => h2 hc.2]
  · rw [if_neg h1, if_neg fun hc => h1 hc.1]

/-- Claim C1: the trim operation keeps a cue exactly when it overlaps the
window and its re-timed span is non-degenerate, re-timing it to
`max 0 (s - W.start)` / `min (W.end - W.start, e - W.start)` (that is,
it coincides with the rule as the spec words it), and consequently no
zero- or negative-duration cue appears in the output. -/
theorem trim_keeps_exactly_overlapping (ws we : ℚ) (track : List SubtitleCue) :
    selectAndRetime ws we track = selectAndRetimeSpec ws we track ∧
    (selectAndRetime ws we track).all (fun c => decide (c.sub_start < c.sub_end)) = true := by
  constructor
  · unfold selectAndRetime selectAndRetimeSpec
    rw [funext (retimeCue_eq_specKeepRule ws we)]
  · rw [List.all_eq_true]
    intro c hc
    obtain ⟨a, _, hr⟩ := List.mem_filterMap.mp hc
    unfold retimeCue at hr
    split_ifs at hr with h1 h2
    · simp only [Option.some.injEq] at hr
      subst hr
      simpa using h2

/-- Claim C2: every cue in the output of the trim operation satisfies
`0 ≤ newStart < newEnd ≤ window.end - window.start`. -/
theorem retimed_cue_bounds (ws we : ℚ) (track : List SubtitleCue) (c : SubtitleCue)
    (hc : c ∈ selectAndRetime ws we track) :
    0 ≤ c.sub_start ∧ c.sub_start < c.sub_end ∧ c.sub_end ≤ we - ws := by
  obtain ⟨a, _, hr⟩ := List.mem_filterMap.mp hc
  unfold retimeCue at hr
  split_ifs at hr with h1 h2
  · simp only [Option.some.injEq] at hr
    subst hr
    exact ⟨le_max_left 0 _, by simpa using h2, min_le_left _ _⟩

theorem retimed_cue_bounds_witness :
    (⟨0, 2, ["A"]⟩ : SubtitleCue) ∈ selectAndRetime 3 15 [⟨0, 5, ["A"]⟩] ∧
      (0 ≤ ((⟨0, 2, ["A"]⟩ : SubtitleCue)).sub_start ∧
        ((⟨0, 2, ["A"]⟩ : SubtitleCue)).sub_start < ((⟨0, 2, ["A"]⟩ : SubtitleCue)).sub_end ∧
        ((⟨0, 2, ["A"]⟩ : SubtitleCue)).sub_end ≤ 15 - 3) := by
  have hmem : (⟨0, 2, ["A"]⟩ : SubtitleCue) ∈ selectAndRetime 3 15 [⟨0, 5, ["A"]⟩] := by
    with_unfolding_all decide
  exact ⟨hmem, retimed_cue_bounds 3 15 [⟨0, 5, ["A"]⟩] ⟨0, 2, ["A"]⟩ hmem⟩

theorem trimLoop_eq_numberBlocks (ws we : ℚ) :
    ∀ (blocks : List String) (k : Nat),
      trimLoop ws we blocks k =
        numberBlocks k (blocks.filterMap fun b => (parseBlock b).bind (retimeCue ws we)) := by
  intro blocks
  induction blocks with
  | nil => intro k; rfl
  | cons b rest ih =>
    intro k
    cases hpb : (parseBlock b).bind (retimeCue ws we) with
    | none => simp [trimLoop, List.filterMap_cons, hpb, ih]
    | some c => simp [trimLoop, List.filterMap_cons, hpb, ih, numberBlocks]

theorem numberBlocks_getElem? : ∀ (cs : List SubtitleCue) (k i : Nat),
    (numberBlocks k cs)[i]? = (cs[i]?).map (renderBlock (k + i)) := by
  intro cs
  induction cs with
  | nil => intro k i; simp [numberBlocks]
  | cons c rest ih =>
    intro k i
    cases i with
    | zero => simp [numberBlocks]
    | succ j =>
      have harith : k + (j + 1) = (k + 1) + j := by omega
      simp only [numberBlocks, List.getElem?_cons_succ, harith]
      exact ih (k + 1) j

/-- Claim C5: the surviving cues appear renumbered consecutively from 1,
in their original relative order (the output of the block loop is exactly
the order-preserving `selectAndRetime` result rendered with indices
1, 2, ...; in particular it is not re-sorted by new start time). -/
theorem trim_renumbers_in_order (ws we : ℚ) (blocks : List String) :
    trimLoop ws we blocks 1 =
      numberBlocks 1 (selectAndRetime ws we (blocks.filterMap parseBlock)) ∧
    ∀ i : Nat, (trimLoop ws we blocks 1)[i]? =
      ((selectAndRetime ws we (blocks.filterMap parseBlock))[i]?).map
        (renderBlock (i + 1)) := by
  have hsel : selectAndRetime ws we (blocks.filterMap parseBlock) =
      blocks.filterMap fun b => (parseBlock b).bind (retimeCue ws we) := by
    unfold selectAndRetime
    rw [List.filterMap_filterMap]
  constructor
  · rw [hsel, trimLoop_eq_numberBlocks]
  · intro i
    rw [hsel, trimLoop_eq_numberBlocks, numberBlocks_getElem?, Nat.add_comm 1 i]

/-- Claim C9: empty or unreadable cue input (a failed read is the `none`
input) yields an empty cue track and an empty serialized output, for
every trim window, rather than raising. -/
theorem trim_empty_or_unreadable (ws we : ℚ) :
    _trim_subtitle_file none ws we = "" ∧
    _trim_subtitle_file (some "") ws we = "" ∧
    trimmedCues "" ws we = [] := by
  have hb : blocksOf "" = [""] := by decide
  have hp : parseBlock "" = none := by decide
  refine ⟨rfl, ?_, ?_⟩
  · show String.intercalate "\n\n" (trimLoop ws we (blocksOf "") 1) = ""
    rw [hb]
    have hloop : trimLoop ws we [""] 1 = [] := by
      simp [trimLoop, hp]
    rw [hloop]
    rfl
  · unfold trimmedCues selectAndRetime
    rw [hb]
    simp [List.filterMap_cons, hp]

/-- Claim C10: the user-timestamp parser does not reject negative
fields: `-1:30` parses to the negative value `-30` seconds instead of
raising. -/
theorem parse_timestamp_accepts_negative :
    parse_timestamp ("-1:30") = some (-30) ∧ (-30 : Int) < 0 := by decide

/-- Claim C4: a block with fewer than 3 lines, or whose time line fails
to parse, is skipped (its parse is `none`) without affecting sibling
cues — dropping such a block from the block list leaves the loop's
output unchanged — and the concrete input made of one malformed block
between two well-formed blocks overlapping the window yields exactly a
2-cue output. -/
theorem malformed_block_skipped (ws we : ℚ) (b : String) :
    ((blockLines b).length < 3 → parseBlock b = none) ∧
    (∀ l0 tl rest, blockLines b = l0 :: tl :: rest → timeLineOk tl = false →
      parseBlock b = none) ∧
    (∀ (bs1 bs2 : List String) (k : Nat), parseBlock b = none →
      trimLoop ws we (bs1 ++ b :: bs2) k = trimLoop ws we (bs1 ++ bs2) k) ∧
    (trimmedCues
      ("1\n00:00:01,000 --> 00:00:02,000\nHello\n\nbroken\n\n2\n00:00:03,000 --> 00:00:04,500\nWorld")
      0 10).length = 2 := by
  refine ⟨?_, ?_, ?_, ?_⟩
  · intro hlen
    unfold parseBlock
    unfold blockLines at hlen
    rcases hsp : pySplitStr '\n' [] (pyStrip b) with _ | ⟨l0, _ | ⟨l1, _ | ⟨l2, rest⟩⟩⟩
    · rfl
    · rfl
    · rfl
    · exfalso
      rw [hsp] at hlen
      simp only [List.length_cons] at hlen
      omega
  · intro l0 tl rest hlines htl
    unfold parseBlock
    unfold blockLines at hlines
    rw [hlines]
    cases rest with
    | nil => rfl
    | cons t0 trest =>
      show (match pySplitStr ' ' ['-', '-', '>', ' '] tl with
        | [start_time_str, end_time_str] =>
          match _srt_time_to_seconds start_time_str, _srt_time_to_seconds end_time_str with
          | some s, some e => some (⟨s, e, t0 :: trest⟩ : SubtitleCue)
          | _, _ => none
        | _ => none) = none
      unfold timeLineOk at htl
      rcases hsp : pySplitStr ' ' ['-', '-', '>', ' '] tl with _ | ⟨a, _ | ⟨c, _ | ⟨d, r⟩⟩⟩ <;>
        (try rw [hsp] at htl)
      have htl2 : ((_srt_time_to_seconds a).isSome &&
          (_srt_time_to_seconds c).isSome) = false := htl
      show (match _srt_time_to_seconds a, _srt_time_to_seconds c with
        | some s, some e => some (⟨s, e, t0 :: trest⟩ : SubtitleCue)
        | _, _ => none) = none
      cases ha : _srt_time_to_seconds a <;> cases hc : _srt_time_to_seconds c <;>
        simp_all
  · intro bs1 bs2 k hnone
    induction bs1 generalizing k with
    | nil =>
      show trimLoop ws we (b :: bs2) k = _
      simp [trimLoop, hnone]
    | cons x xs ih =>
      show trimLoop ws we (x :: (xs ++ b :: bs2)) k = trimLoop ws we (x :: (xs ++ bs2)) k
      cases hx : (parseBlock x).bind (retimeCue ws we) with
      | none => simp [trimLoop, hx, ih]
      | some c => simp [trimLoop, hx, ih]
  · with_unfolding_all decide

theorem malformed_block_skipped_witness :
    (blockLines ("broken")).length < 3 ∧ parseBlock ("broken") = none ∧
      trimLoop 0 10 (["1\n00:00:01,000 --> 00:00:02,000\nHello"] ++ ("broken") ::
          ["2\n00:00:03,000 --> 00:00:04,500\nWorld"]) 1 =
        trimLoop 0 10 (["1\n00:00:01,000 --> 00:00:02,000\nHello"] ++
          ["2\n00:00:03,000 --> 00:00:04,500\nWorld"]) 1 :=
  ⟨by decide, (malformed_block_skipped 0 10 ("broken")).1 (by decide),
    (malformed_block_skipped 0 10 ("broken")).2.2.1
      ["1\n00:00:01,000 --> 00:00:02,000\nHello"]
      ["2\n00:00:03,000 --> 00:00:04,500\nWorld"] 1
      ((malformed_block_skipped 0 10 ("broken")).1 (by decide))⟩

/-- Claim C6: `parse_timestamp` returns an integer count of seconds
exactly for the strings whose (stripped) colon-split has exactly 2
integer fields (value `M*60 + S`) or exactly 3 integer fields (value
`H*3600 + M*60 + S`), integer fields being those accepted by Python
`int` — in particular without any 0-59 range check — and fails
(`none`, the `ValueError` path) for every other string. -/
theorem parse_timestamp_characterization (ts : String) (v : Int) :
    parse_timestamp ts = some v ↔
      (∃ p0 p1 mi se, pySplitStr ':' [] (pyStrip ts) = [p0, p1] ∧
        pyInt? p0 = some mi ∧ pyInt? p1 = some se ∧ v = mi * 60 + se) ∨
      (∃ p0 p1 p2 ho mi se, pySplitStr ':' [] (pyStrip ts) = [p0, p1, p2] ∧
        pyInt? p0 = some ho ∧ pyInt? p1 = some mi ∧ pyInt? p2 = some se ∧
        v = ho * 3600 + mi * 60 + se) := by
  unfold parse_timestamp
  rcases hsp : pySplitStr ':' [] (pyStrip ts) with _ | ⟨p0, _ | ⟨p1, _ | ⟨p2, rest⟩⟩⟩
  · simp [hsp]
  · simp [hsp]
  · cases hp0 : pyInt? p0 <;> cases hp1 : pyInt? p1 <;>
      simp [hsp, hp0, hp1, eq_comm]
    rename_i m s2
    constructor
    · rintro rfl
      exact ⟨p0, p1, ⟨rfl, rfl⟩, m, hp0, s2, hp1, rfl⟩
    · rintro ⟨q0, q1, ⟨rfl, rfl⟩, x, hx, y, hy, rfl⟩
      rw [hp0] at hx
      rw [hp1] at hy
      injection hx with hx
      injection hy with hy
      rw [hx, hy]
  · cases rest with
    | nil =>
      cases hp0 : pyInt? p0 <;> cases hp1 : pyInt? p1 <;> cases hp2 : pyInt? p2 <;>
        simp [hsp, hp0, hp1, hp2, eq_comm]
      rename_i ho mi se
      constructor
      · rintro rfl
        exact ⟨p0, p1, p2, ⟨rfl, rfl, rfl⟩, ho, hp0, mi, hp1, se, hp2, rfl⟩
      · rintro ⟨q0, q1, q2, ⟨rfl, rfl, rfl⟩, x, hx, y, hy, z, hz, rfl⟩
        rw [hp0] at hx
        rw [hp1] at hy
        rw [hp2] at hz
        injection hx with hx
        injection hy with hy
        injection hz with hz
        rw [hx, hy, hz]
    | cons p3 rest2 =>
      simp [hsp]

/-- Claim C7: given well-formed start and end timestamps,
`validate_timestamps` fails (the `RangeError` path, `none`) exactly when
start ≥ end or a timestamp exceeds the known duration, and otherwise
returns the parsed pair `(start_seconds, end_seconds)`. -/
theorem validate_timestamps_range (d : Int) (st et : String) (s e : Int)
    (hs : parse_timestamp st = some s) (he : parse_timestamp et = some e) :
    (validate_timestamps d st et = none ↔ (s ≥ e ∨ s > d ∨ e > d)) ∧
    ((s < e ∧ s ≤ d ∧ e ≤ d) → validate_timestamps d st et = some (s, e)) := by
  have hred : validate_timestamps d st et =
      (if s ≥ e then none else if s ≥ d then none else if e > d then none
        else some (s, e)) := by
    unfold validate_timestamps
    rw [hs, he]
  rw [hred]
  constructor
  · constructor
    · intro hnone
      by_contra hcon
      push_neg at hcon
      obtain ⟨h1, h2, h3⟩ := hcon
      rw [if_neg (by omega), if_neg (by omega), if_neg (by omega)] at hnone
      simp at hnone
    · intro hdisj
      split_ifs with h1 h2 h3
      · rfl
      · rfl
      · rfl
      · exfalso
        rcases hdisj with h | h | h <;> omega
  · intro ⟨h1, h2, h3⟩
    rw [if_neg (by omega), if_neg (by omega), if_neg (by omega)]

theorem validate_timestamps_range_witness :
    parse_timestamp ("0:10") = some 10 ∧ parse_timestamp ("0:20") = some 20 ∧
    ((validate_timestamps 100 ("0:10") ("0:20") = none ↔
      ((10 : Int) ≥ 20 ∨ (10 : Int) > 100 ∨ (20 : Int) > 100)) ∧
      (((10 : Int) < 20 ∧ (10 : Int) ≤ 100 ∧ (20 : Int) ≤ 100) →
        validate_timestamps 100 ("0:10") ("0:20") = some (10, 20))) :=
  ⟨by decide, by decide,
    validate_timestamps_range 100 ("0:10") ("0:20") 10 20 (by decide) (by decide)⟩

/-- Claim C8, counterexample: `00:00` is a valid `MM:SS` string, but its
value 0 reformats to `N/A` (the falsy-zero branch of
`_format_duration`), which does not reproduce the original
integer-second value — it does not even parse. -/
theorem format_duration_zero_not_roundtrip :
    parse_timestamp ("00:00") = some 0 ∧ _format_duration 0 = "N/A" ∧
      parse_timestamp (_format_duration 0) = none := by decide

theorem parse_timestamp_two_fields (b c : Nat) :
    parse_timestamp (pad2Nat b ++ ":" ++ pad2Nat c) = some ((b : Int) * 60 + (c : Int)) := by
  have hB := padZeros_mem 2 _ (natDigits_mem b)
  have hC := padZeros_mem 2 _ (natDigits_mem c)
  have hdata : (pad2Nat b ++ ":" ++ pad2Nat c).data =
      padZeros 2 (natDigits b) ++ ':' :: padZeros 2 (natDigits c) := by
    simp only [string_data_append]
    show padZeros 2 (natDigits b) ++ [':'] ++ padZeros 2 (natDigits c) = _
    simp [List.append_assoc]
  have hstr : pad2Nat b ++ ":" ++ pad2Nat c =
      ⟨padZeros 2 (natDigits b) ++ ':' :: padZeros 2 (natDigits c)⟩ :=
    string_eq_of_data _ _ hdata
  have hnb : ∀ x ∈ padZeros 2 (natDigits b) ++ ':' :: padZeros 2 (natDigits c),
      isPySpace x = false := by
    intro x hx
    rcases List.mem_append.mp hx with hx | hx
    · exact (digitChars_facts x (hB x hx)).2.2.1
    · rcases List.mem_cons.mp hx with hx | hx
      · subst hx; decide
      · exact (digitChars_facts x (hC x hx)).2.2.1
  have hnc : ∀ (l : List Char), (∀ x ∈ l, x ∈ digitChars) → ':' ∉ l := by
    intro l hl hmem
    exact (digitChars_facts ':' (hl ':' hmem)).2.2.2.1 rfl
  unfold parse_timestamp
  rw [hstr, pyStrip_eq_self _ hnb, pySplitStr_single]
  rw [show (String.mk (padZeros 2 (natDigits b) ++ ':' :: padZeros 2 (natDigits c))).data =
      padZeros 2 (natDigits b) ++ ':' :: padZeros 2 (natDigits c) from rfl]
  rw [splitOnChar_append _ _ _ (hnc _ hB), splitOnChar_of_not_mem _ _ (hnc _ hC)]
  show (match pyInt? ⟨padZeros 2 (natDigits b)⟩, pyInt? ⟨padZeros 2 (natDigits c)⟩ with
    | some minutes, some seconds => some (minutes * 60 + seconds)
    | _, _ => none) = _
  rw [pyInt?_padded, pyInt?_padded]

theorem parse_timestamp_three_fields (a b c : Nat) :
    parse_timestamp (pad2Nat a ++ ":" ++ pad2Nat b ++ ":" ++ pad2Nat c) =
      some ((a : Int) * 3600 + (b : Int) * 60 + (c : Int)) := by
  have hA := padZeros_mem 2 _ (natDigits_mem a)
  have hB := padZeros_mem 2 _ (natDigits_mem b)
  have hC := padZeros_mem 2 _ (natDigits_mem c)
  have hdata : (pad2Nat a ++ ":" ++ pad2Nat b ++ ":" ++ pad2Nat c).data =
      padZeros 2 (natDigits a) ++ ':' ::
        (padZeros 2 (natDigits b) ++ ':' :: padZeros 2 (natDigits c)) := by
    simp only [string_data_append]
    show padZeros 2 (natDigits a) ++ [':'] ++ padZeros 2 (natDigits b) ++ [':'] ++
        padZeros 2 (natDigits c) = _
    simp [List.append_assoc]
  have hstr : pad2Nat a ++ ":" ++ pad2Nat b ++ ":" ++ pad2Nat c =
      ⟨padZeros 2 (natDigits a) ++ ':' ::
        (padZeros 2 (natDigits b) ++ ':' :: padZeros 2 (natDigits c))⟩ :=
    string_eq_of_data _ _ hdata
  have hnb : ∀ x ∈ padZeros 2 (natDigits a) ++ ':' ::
      (padZeros 2 (natDigits b) ++ ':' :: padZeros 2 (natDigits c)),
      isPySpace x = false := by
    intro x hx
    rcases List.mem_append.mp hx with hx | hx
    · exact (digitChars_facts x (hA x hx)).2.2.1
    · rcases List.mem_cons.mp hx with hx | hx
      · subst hx; decide
      · rcases List.mem_append.mp hx with hx | hx
        · exact (digitChars_facts x (hB x hx)).2.2.1
        · rcases List.mem_cons.mp hx with hx | hx
          · subst hx; decide
          · exact (digitChars_facts x (hC x hx)).2.2.1
  have hnc : ∀ (l : List Char), (∀ x ∈ l, x ∈ digitChars) → ':' ∉ l := by
    intro l hl hmem
    exact (digitChars_facts ':' (hl ':' hmem)).2.2.2.1 rfl
  unfold parse_timestamp
  rw [hstr, pyStrip_eq_self _ hnb, pySplitStr_single]
  rw [show (String.mk (padZeros 2 (natDigits a) ++ ':' ::
      (padZeros 2 (natDigits b) ++ ':' :: padZeros 2 (natDigits c)))).data =
      padZeros 2 (natDigits a) ++ ':' ::
        (padZeros 2 (natDigits b) ++ ':' :: padZeros 2 (natDigits c)) from rfl]
  rw [splitOnChar_append _ _ _ (hnc _ hA), splitOnChar_append _ _ _ (hnc _ hB),
    splitOnChar_of_not_mem _ _ (hnc _ hC)]
  show (match pyInt? ⟨padZeros 2 (natDigits a)⟩, pyInt? ⟨padZeros 2 (natDigits b)⟩,
      pyInt? ⟨padZeros 2 (natDigits c)⟩ with
    | some hours, some minutes, some seconds => some (hours * 3600 + minutes * 60 + seconds)
    | _, _, _ => none) = _
  rw [pyInt?_padded, pyInt?_padded, pyInt?_padded]

/-- Claim C8, amended: for every valid `MM:SS`/`HH:MM:SS` string whose
parsed value is nonzero (and non-negative), formatting that value back
at the value-dependent granularity (`MM:SS` below one hour, `HH:MM:SS`
otherwise) and re-parsing reproduces the original integer-second value.
The original claim fails only at value 0, where `_format_duration`
returns `N/A` (see `format_duration_zero_not_roundtrip`). -/
theorem parse_format_roundtrip_pos (x : String) (v : Int)
    (hx : parse_timestamp x = some v) (hv : 0 < v) :
    parse_timestamp (_format_duration v) = some v := by
  obtain ⟨n, rfl⟩ : ∃ n : Nat, v = (n : Int) := ⟨v.toNat, by omega⟩
  have hfd3600 : ((n : Int)).fdiv 3600 = ((n / 3600 : Nat) : Int) := by
    rw [Int.fdiv_eq_ediv _ (by norm_num)]
    omega
  have hfm3600 : ((n : Int)).fmod 3600 = ((n % 3600 : Nat) : Int) := by
    rw [Int.fmod_eq_emod _ (by norm_num)]
    omega
  have hfd60 : (((n % 3600 : Nat) : Int)).fdiv 60 = (((n % 3600) / 60 : Nat) : Int) := by
    rw [Int.fdiv_eq_ediv _ (by norm_num)]
    omega
  have hfm60 : ((n : Int)).fmod 60 = ((n % 60 : Nat) : Int) := by
    rw [Int.fmod_eq_emod _ (by norm_num)]
    omega
  unfold _format_duration
  rw [if_neg (by omega : ¬(n : Int) = 0), hfd3600, hfm3600, hfd60, hfm60]
  by_cases hbig : 3600 ≤ n
  · rw [if_pos (by omega : ((n / 3600 : Nat) : Int) > 0)]
    rw [pad2Int_natCast, pad2Int_natCast, pad2Int_natCast, parse_timestamp_three_fields]
    congr 1
    push_cast
    omega
  · rw [if_neg (by omega : ¬((n / 3600 : Nat) : Int) > 0)]
    rw [pad2Int_natCast, pad2Int_natCast, parse_timestamp_two_fields]
    congr 1
    push_cast
    omega

theorem parse_format_roundtrip_pos_witness :
    parse_timestamp ("01:05") = some 65 ∧ (0 : Int) < 65 ∧
      parse_timestamp (_format_duration 65) = some 65 :=
  ⟨by decide, by decide,
    parse_format_roundtrip_pos ("01:05") 65 (by decide) (by decide)⟩
